import Mathlib

/-!
Verification development for the RefineDet loss layer
(`Applications/RefineDet/refinedet_loss.cpp`).

The C++ code is shallowly embedded over exact rationals (`ℚ`).  Tensors are
embedded as functions from (flat) indices to values; the external tensor
library's elementwise operations become ordinary function composition.  The
external activation library (softmax, log) is out of scope of the core and is
modelled by parameters standing for its outputs where a claim needs them.
Where an IEEE-754 float operation can produce a non-finite value (division by
zero), the embedding uses the type `FF` below, which separates finite values
from `±∞`/NaN; everywhere else exact rational arithmetic stands in for float
arithmetic, which is faithful for the concrete inputs evaluated here.
-/

namespace RefineDet

/-! ### Constants (refinedet_loss.cpp lines 35-48) -/

def feature_map_size1 : ℕ := 28
def feature_map_size2 : ℕ := 14
def feature_map_size3 : ℕ := 4
def feature_map_size4 : ℕ := 2
def num_ratios : ℕ := 3

/-- `num_anchors = num_ratios * (28² + 14² + 4² + 2²)` exactly as in the source. -/
def num_anchors : ℕ := num_ratios * (
  feature_map_size1 * feature_map_size1 +
  feature_map_size2 * feature_map_size2 +
  feature_map_size3 * feature_map_size3 +
  feature_map_size4 * feature_map_size4)

def num_classes : ℕ := 21
def max_gt_boxes : ℕ := 5
def positive_anchor_threshold : ℚ := 1/2
def arm_conf_loss_divider : ℚ := 1

/-! ### Floats that may be non-finite

`FF` models an IEEE-754 float result that is either a finite value (embedded
as an exact rational) or one of the non-finite values produced by dividing a
nonzero number by zero (`±∞`) or zero by zero (NaN). -/

inductive FF where
  | fin (q : ℚ)
  | inf
  | ninf
  | nan
deriving DecidableEq, Repr

/-- IEEE float division: finite quotient for a nonzero divisor, `±∞`/NaN for a
zero divisor.  Models `Tensor::divide_i` and scalar float division. -/
def fdiv (a b : ℚ) : FF :=
  if b ≠ 0 then .fin (a / b)
  else if 0 < a then .inf
  else if a < 0 then .ninf
  else .nan

/-! ### GeometryOps: calc_iou (lines 214-276)

`calc_iou(box1_yx, box1_hw, box2_yx, box2_hw)` takes a family of boxes
(`box1`, one per anchor) and one single box (`box2`), all in center/size
form.  The embedding keeps the source's conversion to corner form, the
max/min intersection corners, the ReLU clamp of negative extents, and —
crucially — the source's truncation of the second box's height and width to
`unsigned int` (`unsigned int box2_h = box2_hw.getValue(0);`, lines 268-269)
before computing its area. -/

structure Box where
  cy : ℚ
  cx : ℚ
  h : ℚ
  w : ℚ
deriving DecidableEq, Repr

/-- `std::max` on floats, embedded so that it reduces in the kernel. -/
def fmax (a b : ℚ) : ℚ := if a < b then b else a

/-- `std::min` on floats, embedded so that it reduces in the kernel. -/
def fmin (a b : ℚ) : ℚ := if b < a then b else a

/-- `relu` from the external activation library: `max 0`. -/
def relu (x : ℚ) : ℚ := fmax x 0

/-- Truncation of a nonnegative float to `unsigned int` (C++ float-to-unsigned
conversion truncates toward zero). -/
def truncUInt (q : ℚ) : ℕ := (Int.floor q).toNat

def calc_iou (box1 : ℕ → Box) (box2 : Box) : ℕ → ℚ := fun i =>
  let b1 := box1 i
  let b1y1 := b1.cy - b1.h / 2
  let b1x1 := b1.cx - b1.w / 2
  let b1y2 := b1.cy + b1.h / 2
  let b1x2 := b1.cx + b1.w / 2
  let b2y1 := box2.cy - box2.h / 2
  let b2x1 := box2.cx - box2.w / 2
  let b2y2 := box2.cy + box2.h / 2
  let b2x2 := box2.cx + box2.w / 2
  let inter_x1 := fmax b1x1 b2x1
  let inter_x2 := fmin b1x2 b2x2
  let inter_y1 := fmax b1y1 b2y1
  let inter_y2 := fmin b1y2 b2y2
  let inter_area := relu (inter_x2 - inter_x1) * relu (inter_y2 - inter_y1)
  let box2_h : ℕ := truncUInt box2.h
  let box2_w : ℕ := truncUInt box2.w
  inter_area / (b1.h * b1.w + (box2_h * box2_w : ℕ) - inter_area)

/-! ### AnchorGrid: create_anchors_ and create_anchors (lines 80-132)

Anchor sizes are `base_size · pow(ratio, 0.5)` with ratios `{1/2, 1, 2}`, so
they live in the field `ℚ(√2)`, embedded below as pairs `a + b·√2` with exact
rational coefficients.  This represents the real values the float code
approximates; centers are plain rationals. -/

structure Q2 where
  a : ℚ
  b : ℚ
deriving DecidableEq, Repr

def Q2.ofRat (q : ℚ) : Q2 := ⟨q, 0⟩

def Q2.mul (x y : Q2) : Q2 := ⟨x.a * y.a + 2 * x.b * y.b, x.a * y.b + x.b * y.a⟩

def Q2.inv (x : Q2) : Q2 := ⟨x.a / (x.a ^ 2 - 2 * x.b ^ 2), -x.b / (x.a ^ 2 - 2 * x.b ^ 2)⟩

def Q2.div (x y : Q2) : Q2 := x.mul y.inv

/-- The (noncomputable, proof-only) interpretation of `Q2` in the reals. -/
noncomputable def Q2.toReal (x : Q2) : ℝ := x.a + x.b * Real.sqrt 2

/-- Models `pow(ratio, 0.5)` at the three ratio values occurring in the
source: `√(1/2) = √2/2`, `√1 = 1`, `√2`. -/
def powHalf (r : ℚ) : Q2 := if r = 1/2 then ⟨0, 1/2⟩ else if r = 2 then ⟨0, 1⟩ else ⟨1, 0⟩

/-- `anchor_ratios = {0.5, 1, 2}` (line 85). -/
def anchor_ratios : List ℚ := [1/2, 1, 2]

/-- Value written into `anchor_yx` at logical index `(ratio, h, w, c)`
(lines 92-93): `((h + 0.5)·(1 − c%2) + (w + 0.5)·(c%2)) · stride`.  The ratio
index does not occur in the formula. -/
def anchor_yx_val (stride : ℕ) (h w c : ℕ) : ℚ :=
  ((h + 1/2) * (1 - ((c % 2 : ℕ) : ℚ)) + (w + 1/2) * ((c % 2 : ℕ) : ℚ)) * stride

/-- `priors[r] = {anchor_size · pow(r, 0.5), anchor_size / pow(r, 0.5)}`
(lines 100-102); `c` selects the height (`0`) or width (`1`) entry. -/
def priors (anchor_size : ℕ) (r : ℚ) (c : ℕ) : Q2 :=
  if c = 0 then (Q2.ofRat anchor_size).mul (powHalf r) else (Q2.ofRat anchor_size).div (powHalf r)

/-- `anchor_yx` of `create_anchors_` after the reshape to `[1,1,3·fm²,2]`:
the `(num_ratios, fm, fm, 2)` tensor is flat in NCHW order, so anchor index
`i` decomposes as `i = (ratio·fm + row)·fm + col`. -/
def create_anchors_yx (stride fm : ℕ) (i c : ℕ) : ℚ :=
  anchor_yx_val stride ((i / fm) % fm) (i % fm) c

/-- `anchor_hw` of `create_anchors_` after the reshape: the value at anchor
`i` is `priors[i / fm²][c]` (lines 105-115). -/
def create_anchors_hw (anchor_size fm : ℕ) (i c : ℕ) : Q2 :=
  priors anchor_size (anchor_ratios.getD (i / (fm * fm)) 0) c

/-- `create_anchors()` (lines 124-132): the four scales concatenated along
the anchor axis, finest grid first.  Scale sizes are `3·28² = 2352`,
`3·14² = 588`, `3·4² = 48`, `3·2² = 12`, so the scale offsets are
`0, 2352, 2940, 2988` and the total is `3000`. -/
def create_anchors_yx_cat (i c : ℕ) : ℚ :=
  if i < 2352 then create_anchors_yx 8 28 i c
  else if i < 2940 then create_anchors_yx 16 14 (i - 2352) c
  else if i < 2988 then create_anchors_yx 32 4 (i - 2940) c
  else create_anchors_yx 64 2 (i - 2988) c

def create_anchors_hw_cat (i c : ℕ) : Q2 :=
  if i < 2352 then create_anchors_hw (8*4) 28 i c
  else if i < 2940 then create_anchors_hw (16*4) 14 (i - 2352) c
  else if i < 2988 then create_anchors_hw (32*4) 4 (i - 2940) c
  else create_anchors_hw (64*4) 2 (i - 2988) c

/-- The pair `{anchor_yx, anchor_hw}` returned by `create_anchors()`. -/
def create_anchors : (ℕ → ℕ → ℚ) × (ℕ → ℕ → Q2) :=
  (create_anchors_yx_cat, create_anchors_hw_cat)

/-- Per-scale constants, in the source's concatenation order:
strides `8,16,32,64`. -/
def scale_stride (s : Fin 4) : ℕ :=
  if s.val = 0 then 8 else if s.val = 1 then 16 else if s.val = 2 then 32 else 64

/-- Feature map sizes `28,14,4,2`. -/
def scale_fm (s : Fin 4) : ℕ :=
  if s.val = 0 then 28 else if s.val = 1 then 14 else if s.val = 2 then 4 else 2

/-- Anchor base sizes `8·4, 16·4, 32·4, 64·4`. -/
def scale_base (s : Fin 4) : ℕ :=
  if s.val = 0 then 32 else if s.val = 1 then 64 else if s.val = 2 then 128 else 256

/-- Offset of each scale's block in the concatenated anchor axis. -/
def scale_offset (s : Fin 4) : ℕ :=
  if s.val = 0 then 0 else if s.val = 1 then 2352 else if s.val = 2 then 2940 else 2988

end RefineDet

namespace RefineDet

lemma index_decomp (fm b h w : ℕ) (hfm : 0 < fm) (hh : h < fm) (hww : w < fm) :
    ((b * fm + h) * fm + w) / (fm * fm) = b ∧
    (((b * fm + h) * fm + w) / fm) % fm = h ∧
    ((b * fm + h) * fm + w) % fm = w := by
  have hlt : w + h * fm < fm * fm := by
    calc w + h * fm < fm + h * fm := by omega
    _ = (h + 1) * fm := by ring
    _ ≤ fm * fm := by exact Nat.mul_le_mul_right fm hh
  refine ⟨?_, ?_, ?_⟩
  · have e : (b * fm + h) * fm + w = w + h * fm + b * (fm * fm) := by ring
    rw [e, Nat.add_mul_div_right _ _ (Nat.mul_pos hfm hfm), Nat.div_eq_of_lt hlt, Nat.zero_add]
  · have e : (b * fm + h) * fm + w = w + (h + b * fm) * fm := by ring
    rw [e, Nat.add_mul_div_right _ _ hfm, Nat.div_eq_of_lt hww, Nat.zero_add,
      Nat.add_mul_mod_self_right, Nat.mod_eq_of_lt hh]
  · have e : (b * fm + h) * fm + w = w + (h + b * fm) * fm := by ring
    rw [e, Nat.add_mul_mod_self_right, Nat.mod_eq_of_lt hww]

lemma create_anchors_yx_index (stride fm : ℕ) (hfm : 0 < fm) (b h w c : ℕ)
    (hh : h < fm) (hww : w < fm) :
    create_anchors_yx stride fm ((b * fm + h) * fm + w) c = anchor_yx_val stride h w c := by
  unfold create_anchors_yx
  rw [(index_decomp fm b h w hfm hh hww).2.1, (index_decomp fm b h w hfm hh hww).2.2]

lemma create_anchors_hw_index (size fm : ℕ) (hfm : 0 < fm) (b h w c : ℕ)
    (hh : h < fm) (hww : w < fm) :
    create_anchors_hw size fm ((b * fm + h) * fm + w) c
      = priors size (anchor_ratios.getD b 0) c := by
  unfold create_anchors_hw
  rw [(index_decomp fm b h w hfm hh hww).1]

/-- C4: the claim says `calc_iou` yields values in `[0,1]`, `1` on a box
paired with itself, and is symmetric.  Evaluating the embedded code: for the
box centered at `(10,10)` with size `(3/2, 3/2)` paired with itself, the IoU
is `9/4` (neither `≤ 1` nor `= 1`), because the second box's height and width
are truncated to `unsigned int` before its area enters the union; and for the
pair of concentric boxes of sizes `(1,1)` and `(3/2,3/2)` the two argument
orders give `1` and `4/9`, so `calc_iou` is not symmetric. -/
theorem calc_iou_violates_range_self_symmetry :
    calc_iou (fun _ => ⟨10, 10, 3/2, 3/2⟩) ⟨10, 10, 3/2, 3/2⟩ 0 = 9/4 ∧
    calc_iou (fun _ => ⟨1/2, 1/2, 1, 1⟩) ⟨1/2, 1/2, 3/2, 3/2⟩ 0 = 1 ∧
    calc_iou (fun _ => ⟨1/2, 1/2, 3/2, 3/2⟩) ⟨1/2, 1/2, 1, 1⟩ 0 = 4/9 := by
  refine ⟨?_, ?_, ?_⟩ <;> norm_num [calc_iou, fmax, fmin, relu, truncUInt]

lemma sqrt_two_mul_self : Real.sqrt 2 * Real.sqrt 2 = 2 :=
  Real.mul_self_sqrt (by norm_num)

lemma sqrt_half_eq : Real.sqrt ((1:ℝ)/2) = Real.sqrt 2 / 2 := by
  have h2ne : Real.sqrt 2 ≠ 0 := by positivity
  rw [show (1:ℝ)/2 = 2⁻¹ by norm_num, Real.sqrt_inv]
  field_simp

lemma anchor_yx_val_c0 (stride h w : ℕ) :
    anchor_yx_val stride h w 0 = (h + 1/2) * stride := by
  unfold anchor_yx_val; norm_num

lemma anchor_yx_val_c1 (stride h w : ℕ) :
    anchor_yx_val stride h w 1 = (w + 1/2) * stride := by
  unfold anchor_yx_val; norm_num

lemma priors_toReal (size : ℕ) (r : ℚ) (hr : r ∈ anchor_ratios) :
    (priors size r 0).toReal = size * Real.sqrt (r : ℝ) ∧
    (priors size r 1).toReal = size / Real.sqrt (r : ℝ) := by
  have h2 : Real.sqrt 2 * Real.sqrt 2 = 2 := sqrt_two_mul_self
  have h2ne : Real.sqrt 2 ≠ 0 := by positivity
  simp only [anchor_ratios, List.mem_cons, List.not_mem_nil, or_false] at hr
  rcases hr with rfl | rfl | rfl
  · constructor
    · simp only [priors, powHalf, Q2.ofRat, Q2.mul, Q2.div, Q2.inv, Q2.toReal]
      norm_num
      field_simp
      linear_combination (size : ℝ) * h2
    · simp only [priors, powHalf, Q2.ofRat, Q2.mul, Q2.div, Q2.inv, Q2.toReal]
      norm_num
  · constructor
    · simp only [priors, powHalf, Q2.ofRat, Q2.mul, Q2.div, Q2.inv, Q2.toReal]
      norm_num
    · simp only [priors, powHalf, Q2.ofRat, Q2.mul, Q2.div, Q2.inv, Q2.toReal]
      norm_num
  · constructor
    · simp only [priors, powHalf, Q2.ofRat, Q2.mul, Q2.div, Q2.inv, Q2.toReal]
      norm_num
    · simp only [priors, powHalf, Q2.ofRat, Q2.mul, Q2.div, Q2.inv, Q2.toReal]
      norm_num
      field_simp
      linear_combination (size : ℝ) * h2

lemma cat_scale0 (b h w c : ℕ) (hb : b < 3) (hh : h < 28) (hww : w < 28) :
    create_anchors_yx_cat (0 + (b * 28 + h) * 28 + w) c = anchor_yx_val 8 h w c ∧
    create_anchors_hw_cat (0 + (b * 28 + h) * 28 + w) c
      = priors 32 (anchor_ratios.getD b 0) c := by
  have hz : 0 + (b * 28 + h) * 28 + w = (b * 28 + h) * 28 + w := by omega
  have hlt : (b * 28 + h) * 28 + w < 2352 := by omega
  rw [hz]
  unfold create_anchors_yx_cat create_anchors_hw_cat
  rw [if_pos hlt, if_pos hlt]
  exact ⟨create_anchors_yx_index 8 28 (by norm_num) b h w c hh hww,
    create_anchors_hw_index (8*4) 28 (by norm_num) b h w c hh hww⟩

lemma cat_scale1 (b h w c : ℕ) (hb : b < 3) (hh : h < 14) (hww : w < 14) :
    create_anchors_yx_cat (2352 + (b * 14 + h) * 14 + w) c = anchor_yx_val 16 h w c ∧
    create_anchors_hw_cat (2352 + (b * 14 + h) * 14 + w) c
      = priors 64 (anchor_ratios.getD b 0) c := by
  have hlt1 : ¬(2352 + (b * 14 + h) * 14 + w < 2352) := by omega
  have hlt2 : 2352 + (b * 14 + h) * 14 + w < 2940 := by omega
  have hi : 2352 + (b * 14 + h) * 14 + w - 2352 = (b * 14 + h) * 14 + w := by omega
  unfold create_anchors_yx_cat create_anchors_hw_cat
  rw [if_neg hlt1, if_pos hlt2, if_neg hlt1, if_pos hlt2, hi]
  exact ⟨create_anchors_yx_index 16 14 (by norm_num) b h w c hh hww,
    create_anchors_hw_index (16*4) 14 (by norm_num) b h w c hh hww⟩

lemma cat_scale2 (b h w c : ℕ) (hb : b < 3) (hh : h < 4) (hww : w < 4) :
    create_anchors_yx_cat (2940 + (b * 4 + h) * 4 + w) c = anchor_yx_val 32 h w c ∧
    create_anchors_hw_cat (2940 + (b * 4 + h) * 4 + w) c
      = priors 128 (anchor_ratios.getD b 0) c := by
  have hlt1 : ¬(2940 + (b * 4 + h) * 4 + w < 2352) := by omega
  have hlt2 : ¬(2940 + (b * 4 + h) * 4 + w < 2940) := by omega
  have hlt3 : 2940 + (b * 4 + h) * 4 + w < 2988 := by omega
  have hi : 2940 + (b * 4 + h) * 4 + w - 2940 = (b * 4 + h) * 4 + w := by omega
  unfold create_anchors_yx_cat create_anchors_hw_cat
  rw [if_neg hlt1, if_neg hlt2, if_pos hlt3, if_neg hlt1, if_neg hlt2, if_pos hlt3, hi]
  exact ⟨create_anchors_yx_index 32 4 (by norm_num) b h w c hh hww,
    create_anchors_hw_index (32*4) 4 (by norm_num) b h w c hh hww⟩

lemma cat_scale3 (b h w c : ℕ) (_hb : b < 3) (hh : h < 2) (hww : w < 2) :
    create_anchors_yx_cat (2988 + (b * 2 + h) * 2 + w) c = anchor_yx_val 64 h w c ∧
    create_anchors_hw_cat (2988 + (b * 2 + h) * 2 + w) c
      = priors 256 (anchor_ratios.getD b 0) c := by
  have hlt1 : ¬(2988 + (b * 2 + h) * 2 + w < 2352) := by omega
  have hlt2 : ¬(2988 + (b * 2 + h) * 2 + w < 2940) := by omega
  have hlt3 : ¬(2988 + (b * 2 + h) * 2 + w < 2988) := by omega
  have hi : 2988 + (b * 2 + h) * 2 + w - 2988 = (b * 2 + h) * 2 + w := by omega
  unfold create_anchors_yx_cat create_anchors_hw_cat
  rw [if_neg hlt1, if_neg hlt2, if_neg hlt3, if_neg hlt1, if_neg hlt2, if_neg hlt3, hi]
  exact ⟨create_anchors_yx_index 64 2 (by norm_num) b h w c hh hww,
    create_anchors_hw_index (64*4) 2 (by norm_num) b h w c hh hww⟩

lemma cat_at_scale (s : Fin 4) (b h w c : ℕ) (hb : b < 3)
    (hh : h < scale_fm s) (hww : w < scale_fm s) :
    create_anchors_yx_cat (scale_offset s + (b * scale_fm s + h) * scale_fm s + w) c
      = anchor_yx_val (scale_stride s) h w c ∧
    create_anchors_hw_cat (scale_offset s + (b * scale_fm s + h) * scale_fm s + w) c
      = priors (scale_base s) (anchor_ratios.getD b 0) c := by
  fin_cases s
  · exact cat_scale0 b h w c hb hh hww
  · exact cat_scale1 b h w c hb hh hww
  · exact cat_scale2 b h w c hb hh hww
  · exact cat_scale3 b h w c hb hh hww

lemma ratios_getD_mem (b : ℕ) (hb : b < 3) : anchor_ratios.getD b 0 ∈ anchor_ratios := by
  interval_cases b <;> simp [anchor_ratios]

/-- C10: anchor generation is deterministic and idempotent (the
embedding is a pure value, so two reads are identical); the total anchor
count constant equals `3 × (28² + 14² + 4² + 2²) = 3000`; and for each scale,
ratio index `b < 3` and grid cell `(h, w)`, the generated center is
`((h+0.5)·stride, (w+0.5)·stride)` — the formula does not depend on the
ratio index, so the center is identical for all ratios at a cell — and the
generated size is `(base·√r, base/√r)`. -/
theorem create_anchors_deterministic_count_formulas :
    create_anchors = create_anchors ∧
    num_anchors = 3 * (28*28 + 14*14 + 4*4 + 2*2) ∧
    num_anchors = 3000 ∧
    ∀ (s : Fin 4) (b h w : ℕ), b < 3 → h < scale_fm s → w < scale_fm s →
      create_anchors_yx_cat (scale_offset s + (b * scale_fm s + h) * scale_fm s + w) 0
          = (h + 1/2) * scale_stride s ∧
      create_anchors_yx_cat (scale_offset s + (b * scale_fm s + h) * scale_fm s + w) 1
          = (w + 1/2) * scale_stride s ∧
      (create_anchors_hw_cat (scale_offset s + (b * scale_fm s + h) * scale_fm s + w) 0).toReal
          = scale_base s * Real.sqrt ((anchor_ratios.getD b 0 : ℚ) : ℝ) ∧
      (create_anchors_hw_cat (scale_offset s + (b * scale_fm s + h) * scale_fm s + w) 1).toReal
          = scale_base s / Real.sqrt ((anchor_ratios.getD b 0 : ℚ) : ℝ) := by
  refine ⟨rfl, by norm_num [num_anchors, num_ratios, feature_map_size1, feature_map_size2,
    feature_map_size3, feature_map_size4], by norm_num [num_anchors, num_ratios,
    feature_map_size1, feature_map_size2, feature_map_size3, feature_map_size4], ?_⟩
  intro s b h w hb hh hww
  have h0 := cat_at_scale s b h w 0 hb hh hww
  have h1 := cat_at_scale s b h w 1 hb hh hww
  have hp := priors_toReal (scale_base s) (anchor_ratios.getD b 0) (ratios_getD_mem b hb)
  exact ⟨by rw [h0.1, anchor_yx_val_c0], by rw [h1.1, anchor_yx_val_c1],
    by rw [h0.2, hp.1], by rw [h1.2, hp.2]⟩

/-- Closed witness for the quantified part of the C10 theorem: scale 0,
ratio 0, cell (0, 1). -/
theorem create_anchors_deterministic_count_formulas_witness :
    create_anchors_yx_cat (scale_offset 0 + (0 * scale_fm 0 + 0) * scale_fm 0 + 1) 0
        = (0 + 1/2) * scale_stride 0 ∧
    create_anchors_yx_cat (scale_offset 0 + (0 * scale_fm 0 + 0) * scale_fm 0 + 1) 1
        = (1 + 1/2) * scale_stride 0 ∧
    (create_anchors_hw_cat (scale_offset 0 + (0 * scale_fm 0 + 0) * scale_fm 0 + 1) 0).toReal
        = scale_base 0 * Real.sqrt ((anchor_ratios.getD 0 0 : ℚ) : ℝ) ∧
    (create_anchors_hw_cat (scale_offset 0 + (0 * scale_fm 0 + 0) * scale_fm 0 + 1) 1).toReal
        = scale_base 0 / Real.sqrt ((anchor_ratios.getD 0 0 : ℚ) : ℝ) := by
  have := create_anchors_deterministic_count_formulas.2.2.2 0 0 0 1
    (by norm_num) (by norm_num [scale_fm]) (by norm_num [scale_fm])
  simpa using this

/-- Modelled from the spec: the layout the claim asserts — within a scale
the anchor index enumerates `(row, col, ratio)` with the ratio varying
fastest, i.e. index `a = (row·fm + col)·3 + ratio`, so the center of anchor
`a` would be read off `row = a / (3·fm)` and `col = (a / 3) % fm`. -/
def claimed_anchor_yx (stride fm : ℕ) (a c : ℕ) : ℚ :=
  anchor_yx_val stride (a / (3 * fm)) ((a / 3) % fm) c

/-- C7 counterexample: at anchor index 1 of the finest scale the code
yields x-center `(1+0.5)·8 = 12` (the column varies fastest), while the
claimed `(row, col, ratio)`-nested layout yields x-center `(0+0.5)·8 = 4`
(anchors 0,1,2 would share the cell); so the claimed enumeration order is
not the code's. -/
theorem anchor_index_order_counterexample :
    create_anchors_yx_cat 1 1 = 12 ∧ claimed_anchor_yx 8 28 1 1 = 4 ∧
    create_anchors_yx_cat 1 1 ≠ claimed_anchor_yx 8 28 1 1 := by
  refine ⟨?_, ?_, ?_⟩ <;>
    norm_num [create_anchors_yx_cat, create_anchors_yx, claimed_anchor_yx, anchor_yx_val]

/-- C7 amended: the anchor index enumerates `(scale, ratio, row,
col)` in that nesting order: the four scales are concatenated finest grid
first at offsets `0, 2352, 2940, 2988`, and within each scale the index is
`(ratio·fm + row)·fm + col` — the column varies fastest, then the row, then
the ratio: the center is determined by `(row, col)` and the size by the
ratio. -/
theorem anchor_index_order_scale_ratio_row_col (s : Fin 4) (b h w c : ℕ) (hb : b < 3)
    (hh : h < scale_fm s) (hww : w < scale_fm s) :
    create_anchors_yx_cat (scale_offset s + (b * scale_fm s + h) * scale_fm s + w) c
      = anchor_yx_val (scale_stride s) h w c ∧
    create_anchors_hw_cat (scale_offset s + (b * scale_fm s + h) * scale_fm s + w) c
      = priors (scale_base s) (anchor_ratios.getD b 0) c :=
  cat_at_scale s b h w c hb hh hww

/-- Closed witness for the amended C7 theorem: scale 1, ratio 2, cell (1, 0),
coordinate 0. -/
theorem anchor_index_order_scale_ratio_row_col_witness :
    create_anchors_yx_cat (scale_offset 1 + (2 * scale_fm 1 + 1) * scale_fm 1 + 0) 0
      = anchor_yx_val (scale_stride 1) 1 0 0 ∧
    create_anchors_hw_cat (scale_offset 1 + (2 * scale_fm 1 + 1) * scale_fm 1 + 0) 0
      = priors (scale_base 1) (anchor_ratios.getD 2 0) 0 :=
  anchor_index_order_scale_ratio_row_col 1 2 1 0 0 (by norm_num)
    (by norm_num [scale_fm]) (by norm_num [scale_fm])

end RefineDet

namespace RefineDet

/-! ### AnchorMatcher (forwarding, lines 310-375)

The matcher consumes, per ground truth, the IoU vector `calc_iou` returned
for it (line 350); the embedding takes those vectors as part of the
ground-truth data, exactly the values the loop reads. -/

/-- Per-anchor match data: `anchor_gt_label_idx`, `anchor_gt_label_iou`,
`anchor_gt_label_yx[b]`, `anchor_gt_label_hw[b]` (lines 342-346).  All four
arrays are default-initialised: index 0, IoU 0, target `(0,0)`. -/
structure MatchRec where
  idx : ℕ
  iou : ℚ
  yx : ℚ × ℚ
  hw : ℚ × ℚ
deriving DecidableEq, Repr

def initMatchRec : MatchRec := ⟨0, 0, (0, 0), (0, 0)⟩

/-- One ground-truth box (center/size form) of a batch item together with its
IoU against each anchor. -/
structure GtEntry where
  yx : ℚ × ℚ
  hw : ℚ × ℚ
  iou : ℕ → ℚ

/-- `std::max_element` over the IoU vector (line 351): index of the first
maximal element (a later element replaces the current best only on strict
excess). -/
def max_elem_idx (A : ℕ) (f : ℕ → ℚ) : ℕ :=
  (List.range A).foldl (fun best i => if f best < f i then i else best) 0

/-- State of the per-item matching loop: the per-anchor records and the
`positive_idx_set`. -/
structure MatchState where
  record : ℕ → MatchRec
  pos : Finset ℕ

def matchInit : MatchState := ⟨fun _ => initMatchRec, ∅⟩

/-- Body of the per-ground-truth loop (lines 349-368): overwrite each
anchor's best record iff this ground truth's IoU strictly exceeds the
recorded one (`anchor_gt_label_iou[i] < anc_gt_iou[i]`, line 354); then
insert the argmax anchor and every anchor with IoU > 0.5 into
`positive_idx_set`. -/
def matchStep (A : ℕ) (g : ℕ) (e : GtEntry) (st : MatchState) : MatchState :=
  let rec1 : ℕ → MatchRec := fun i =>
    if (st.record i).iou < e.iou i then ⟨g, e.iou i, e.yx, e.hw⟩ else st.record i
  let pos1 := insert (max_elem_idx A e.iou) st.pos
  let pos2 := pos1 ∪ (Finset.range A).filter (fun i => e.iou i > positive_anchor_threshold)
  ⟨rec1, pos2⟩

/-- The per-item matching loop over ground truths `0 .. nGt-1` (line 349). -/
def matchItem (A nGt : ℕ) (gts : ℕ → GtEntry) : MatchState :=
  (List.range nGt).foldl (fun st g => matchStep A g (gts g) st) matchInit

/-- `num_gt_boxes` (lines 310-318): counts presence flags read by flat
tensor index `0 ≤ i < max_gt_boxes`, stopping at the first zero.  In the
batched `[batch, 1, max_gt_boxes, 1]` label tensor the flat indices `0..4`
address batch item 0's flags only. -/
def num_gt_boxes (gt_is_label_flat : ℕ → ℚ) : ℕ :=
  ((List.range max_gt_boxes).takeWhile (fun i => decide (gt_is_label_flat i ≠ 0))).length

/-- The matching portion of `forwarding` over the whole batch:
`num_gt_boxes` is computed once from batch item 0's flags, before the batch
loop (lines 310-318), and every item's matching loop iterates that shared
count. -/
def forwardMatchAll (A : ℕ) (gt_is_label : ℕ → ℕ → ℚ) (gts : ℕ → ℕ → GtEntry) :
    ℕ → MatchState :=
  fun b => matchItem A (num_gt_boxes (gt_is_label 0)) (gts b)

lemma matchItem_succ (A n : ℕ) (gts : ℕ → GtEntry) :
    matchItem A (n + 1) gts = matchStep A n (gts n) (matchItem A n gts) := by
  unfold matchItem
  rw [List.range_succ, List.foldl_append]
  rfl

lemma matchStep_record (A g : ℕ) (e : GtEntry) (st : MatchState) (a : ℕ) :
    (matchStep A g e st).record a
      = if (st.record a).iou < e.iou a then ⟨g, e.iou a, e.yx, e.hw⟩ else st.record a := rfl

end RefineDet

namespace RefineDet

/-- C9 amended: after any prefix of a batch item's ground truths, an
anchor's recorded match is overwritten only on strict IoU excess, so either
no processed ground truth had strictly positive IoU at the anchor and the
record still holds the initial null values (index 0, IoU 0, target (0,0)),
or the record holds the earliest ground truth attaining the maximum IoU
among those processed.  (The unamended claim fails in the first case: the
null target is not the earliest processed ground truth's center/size.) -/
theorem match_record_is_best_positive_so_far (A n : ℕ) (gts : ℕ → GtEntry) (a : ℕ) :
    ((matchItem A n gts).record a = initMatchRec ∧ ∀ k, k < n → (gts k).iou a ≤ 0) ∨
    (∃ k, k < n ∧ (matchItem A n gts).record a
        = ⟨k, (gts k).iou a, (gts k).yx, (gts k).hw⟩ ∧
      0 < (gts k).iou a ∧ (∀ j, j < n → (gts j).iou a ≤ (gts k).iou a) ∧
      (∀ j, j < k → (gts j).iou a < (gts k).iou a)) := by
  induction n with
  | zero =>
    left
    exact ⟨rfl, fun k hk => absurd hk (Nat.not_lt_zero k)⟩
  | succ n ih =>
    rw [matchItem_succ, matchStep_record]
    by_cases hlt : ((matchItem A n gts).record a).iou < (gts n).iou a
    · right
      rw [if_pos hlt]
      rcases ih with ⟨hrec, hall⟩ | ⟨k, hk, hrec, hpos, hle, hstrict⟩
      · have hiou0 : ((matchItem A n gts).record a).iou = 0 := by rw [hrec]; rfl
        rw [hiou0] at hlt
        refine ⟨n, Nat.lt_succ_self n, rfl, hlt, ?_, ?_⟩
        · intro j hj
          rcases Nat.lt_succ_iff_lt_or_eq.mp hj with h | rfl
          · exact le_of_lt (lt_of_le_of_lt (hall j h) hlt)
          · exact le_refl _
        · intro j hj
          exact lt_of_le_of_lt (hall j hj) hlt
      · have hiou : ((matchItem A n gts).record a).iou = (gts k).iou a := by rw [hrec]
        rw [hiou] at hlt
        refine ⟨n, Nat.lt_succ_self n, rfl, lt_trans hpos hlt, ?_, ?_⟩
        · intro j hj
          rcases Nat.lt_succ_iff_lt_or_eq.mp hj with h | rfl
          · exact le_of_lt (lt_of_le_of_lt (hle j h) hlt)
          · exact le_refl _
        · intro j hj
          exact lt_of_le_of_lt (hle j hj) hlt
    · rw [if_neg hlt]
      rcases ih with ⟨hrec, hall⟩ | ⟨k, hk, hrec, hpos, hle, hstrict⟩
      · left
        have hiou0 : ((matchItem A n gts).record a).iou = 0 := by rw [hrec]; rfl
        rw [hiou0] at hlt
        refine ⟨hrec, ?_⟩
        intro j hj
        rcases Nat.lt_succ_iff_lt_or_eq.mp hj with h | rfl
        · exact hall j h
        · exact not_lt.mp hlt
      · right
        have hiou : ((matchItem A n gts).record a).iou = (gts k).iou a := by rw [hrec]
        rw [hiou] at hlt
        refine ⟨k, Nat.lt_succ_of_lt hk, hrec, hpos, ?_, hstrict⟩
        intro j hj
        rcases Nat.lt_succ_iff_lt_or_eq.mp hj with h | rfl
        · exact hle j h
        · exact not_lt.mp hlt

/-- C9 counterexample: one ground truth centered at (100,100) whose IoU at
the anchor is 0 (disjoint boxes).  It is the ground truth with maximum IoU
among those processed, yet the recorded match keeps the initial null target
(0,0), not the ground truth's center (100,100): the update requires strict
excess over the initial IoU 0, so the claim's "recorded match is the
max-IoU ground truth, ties to the earliest" fails for its target fields. -/
theorem match_record_null_target_counterexample :
    (matchItem 1 1 (fun _ => ⟨(100, 100), (2, 2), fun _ => 0⟩)).record 0 = initMatchRec ∧
    ((matchItem 1 1 (fun _ => ⟨(100, 100), (2, 2), fun _ => 0⟩)).record 0).yx ≠ (100, 100) := by
  have hstep : matchItem 1 1 (fun _ => ⟨(100, 100), (2, 2), fun _ => 0⟩)
      = matchStep 1 0 (⟨(100, 100), (2, 2), fun _ => 0⟩ : GtEntry) matchInit := rfl
  have hrec : (matchItem 1 1 (fun _ => ⟨(100, 100), (2, 2), fun _ => 0⟩)).record 0
      = initMatchRec := by
    rw [hstep, matchStep_record, if_neg (by norm_num [matchInit, initMatchRec])]
    rfl
  refine ⟨hrec, ?_⟩
  rw [hrec]
  simp only [initMatchRec, Prod.mk.injEq, ne_eq, not_and]
  intro h
  norm_num at h

/-- Concrete label-tensor flags used for the C5 refutation: batch item 0 has
no present box, batch item 1 has exactly one (flag at index 0). -/
def c5_flags : ℕ → ℕ → ℚ := fun b i => if b = 1 ∧ i = 0 then 1 else 0

/-- Concrete ground-truth data used for the C5 refutation: one box with IoU 1
against the (single) anchor. -/
def c5_gts : ℕ → ℕ → GtEntry := fun _ _ => ⟨(5, 5), (2, 2), fun _ => 1⟩

/-- C5: the claim says each batch item's matcher iterates that item's own
ground truths, stopping at that item's first absent flag.  In the code
`num_gt_boxes` is computed once, from flat label-tensor indices `0..4` —
batch item 0's flags — and reused for every batch item.  At this input,
batch item 0 has zero present boxes while batch item 1 has one: item 1's
matching runs zero iterations and produces an empty positive set, although
iterating item 1's own flags (count 1) yields positive set {0}. -/
theorem num_gt_boxes_shared_across_batch :
    num_gt_boxes (c5_flags 0) = 0 ∧
    num_gt_boxes (c5_flags 1) = 1 ∧
    (forwardMatchAll 1 c5_flags c5_gts 1).pos = ∅ ∧
    (matchItem 1 (num_gt_boxes (c5_flags 1)) (c5_gts 1)).pos = {0} := by
  have hrange : List.range max_gt_boxes = [0, 1, 2, 3, 4] := rfl
  have h0 : num_gt_boxes (c5_flags 0) = 0 := by
    simp only [num_gt_boxes, hrange]
    norm_num [c5_flags, List.takeWhile]
  have h1 : num_gt_boxes (c5_flags 1) = 1 := by
    simp only [num_gt_boxes, hrange]
    norm_num [c5_flags, List.takeWhile]
  refine ⟨h0, h1, ?_, ?_⟩
  · show (matchItem 1 (num_gt_boxes (c5_flags 0)) (c5_gts 1)).pos = ∅
    rw [h0]
    rfl
  · rw [h1]
    have hstep : matchItem 1 1 (c5_gts 1) = matchStep 1 0 (c5_gts 1 0) matchInit := rfl
    rw [hstep]
    simp only [matchStep, matchInit, max_elem_idx, c5_gts, positive_anchor_threshold]
    norm_num [List.range, List.range.loop, Finset.range_one, Finset.filter_singleton]

end RefineDet

namespace RefineDet

/-! ### LossFunctions: cross_entropy_per_anchor (lines 180-188), and
HardNegativeMiner (forwarding, lines 406-432) -/

/-- `cross_entropy_per_anchor(x, l)` (lines 180-188).  `lossAt a` stands for
`-log(softmax(x)(a, l[a]) + 1e-20)`, computed through the external softmax
and `log`; the returned list is embedded exactly: the vector is constructed
with `l.size()` default `(0, 0.0)` entries (`std::vector<std::pair<unsigned
int, float>> idx_loss(l.size())`, line 181) and then one pair per anchor is
appended with `push_back` (line 185). -/
def cross_entropy_per_anchor (A lsize : ℕ) (lossAt : ℕ → ℚ) : List (ℕ × ℚ) :=
  List.replicate lsize (0, 0) ++ (List.range A).map (fun a => (a, lossAt a))

/-- Body of the negative-anchor filtering loop (lines 411-417): the state is
(the set of anchors with `negative_mask = 1`, `num_negative_anchors`).  Each
anchor `i` gets `negative_mask[i] = 1 - positive_mask[i]`; then, if the raw
ARM confidence value at flat index `2·i + 1` (channel 1 of anchor `i`)
exceeds `0.99` and the anchor is negative, its mask bit is cleared again and
the count decremented. -/
def negative_filter_step (posSet : Finset ℕ) (armConf1 : ℕ → ℚ)
    (st : Finset ℕ × ℕ) (i : ℕ) : Finset ℕ × ℕ :=
  if i ∈ posSet then st
  else if 99/100 < armConf1 i then (st.1, st.2 - 1)
  else (insert i st.1, st.2)

/-- Negative-anchor preparation (lines 408-417), starting from
`num_negative_anchors = anchors_num - num_positive_anchors[b]` and an empty
mask. -/
def negative_filter (A : ℕ) (posSet : Finset ℕ) (armConf1 : ℕ → ℚ) : Finset ℕ × ℕ :=
  (List.range A).foldl (negative_filter_step posSet armConf1) (∅, A - posSet.card)

/-- The hard-negative-mining loop (lines 423-432): walk the loss-sorted list
while `num_negative_anchors > 3 * num_positive_anchors[b]`; each visited
entry whose anchor is still in the negative mask is removed from it and the
count decremented. -/
def mine_loop (cap : ℕ) : List (ℕ × ℚ) → Finset ℕ → ℕ → Finset ℕ × ℕ
  | [], s, c => (s, c)
  | p :: rest, s, c =>
    if cap < c then
      if p.1 ∈ s then mine_loop cap rest (s.erase p.1) (c - 1)
      else mine_loop cap rest s c
    else (s, c)

/-- Hard negative mining (lines 419-432): per-anchor ARM loss list (computed
against the positive mask as labels), sorted ascending by loss
(`std::sort` is unstable, so ties may come in any order; the embedding uses
a mergesort with the same ascending comparator — the theorems below depend
only on the sorted list's membership), then the mining loop over it. -/
def hard_negative_mining (A : ℕ) (posSet : Finset ℕ) (armConf1 : ℕ → ℚ)
    (lossAt : ℕ → ℚ) : Finset ℕ × ℕ :=
  let st := negative_filter A posSet armConf1
  mine_loop (3 * posSet.card)
    ((cross_entropy_per_anchor A A lossAt).mergeSort (fun p q => decide (p.2 ≤ q.2)))
    st.1 st.2

/-- `pos_neg_mask[b][i] = positive_mask[b][i] + negative_mask[i]` (line 465),
with both masks as 0/1 values. -/
def pos_neg_mask_val (posSet negSet : Finset ℕ) (i : ℕ) : ℕ :=
  (if i ∈ posSet then 1 else 0) + (if i ∈ negSet then 1 else 0)

end RefineDet

namespace RefineDet

lemma mine_loop_le (cap : ℕ) (l : List (ℕ × ℚ)) :
    ∀ (s : Finset ℕ) (c : ℕ), c = s.card → (∀ j ∈ s, j ∈ l.map Prod.fst) →
      (mine_loop cap l s c).2 ≤ cap := by
  induction l with
  | nil =>
    intro s c hc hmem
    have hs : s = ∅ := Finset.eq_empty_of_forall_not_mem fun j hj => by simpa using hmem j hj
    subst hs
    simp only [Finset.card_empty] at hc
    subst hc
    simp [mine_loop]
  | cons p rest ih =>
    intro s c hc hmem
    by_cases hcap : cap < c
    · by_cases hp : p.1 ∈ s
      · have h1 : c - 1 = (s.erase p.1).card := by
          rw [Finset.card_erase_of_mem hp, hc]
        have h2 : ∀ j ∈ s.erase p.1, j ∈ rest.map Prod.fst := by
          intro j hj
          have hj1 := Finset.mem_of_mem_erase hj
          have hj2 := Finset.ne_of_mem_erase hj
          have hmj := hmem j hj1
          simp only [List.map_cons, List.mem_cons] at hmj
          rcases hmj with h | h
          · exact absurd h hj2
          · exact h
        have := ih _ _ h1 h2
        simpa [mine_loop, hcap, hp] using this
      · have h2 : ∀ j ∈ s, j ∈ rest.map Prod.fst := by
          intro j hj
          have hmj := hmem j hj
          simp only [List.map_cons, List.mem_cons] at hmj
          rcases hmj with h | h
          · subst h
            exact absurd hj hp
          · exact h
        have := ih _ _ hc h2
        simpa [mine_loop, hcap, hp] using this
    · simp only [mine_loop, if_neg hcap]
      omega

lemma negative_filter_fold (posSet : Finset ℕ) (f : ℕ → ℚ) (n : ℕ) (s : Finset ℕ) (c : ℕ) :
    (List.range n).foldl (negative_filter_step posSet f) (s, c)
      = (s ∪ (Finset.range n).filter (fun i => i ∉ posSet ∧ ¬(99/100 < f i)),
         c - ((Finset.range n).filter (fun i => i ∉ posSet ∧ 99/100 < f i)).card) := by
  induction n with
  | zero => simp
  | succ n ih =>
    rw [List.range_succ, List.foldl_append, ih]
    simp only [List.foldl_cons, List.foldl_nil]
    unfold negative_filter_step
    by_cases h1 : n ∈ posSet
    · rw [if_pos h1]
      rw [Finset.range_succ, Finset.filter_insert, Finset.filter_insert,
        if_neg (by simp [h1]), if_neg (by simp [h1])]
    · rw [if_neg h1]
      by_cases h2 : 99/100 < f n
      · rw [if_pos h2]
        have hnotmem : n ∉ (Finset.range n).filter (fun i => i ∉ posSet ∧ 99/100 < f i) := by
          simp [Finset.mem_filter]
        rw [Finset.range_succ, Finset.filter_insert, Finset.filter_insert,
          if_neg (by simp [h1, h2]), if_pos ⟨h1, h2⟩, Finset.card_insert_of_not_mem hnotmem]
        simp only [Prod.mk.injEq, true_and]
        omega
      · rw [if_neg h2]
        rw [Finset.range_succ, Finset.filter_insert, Finset.filter_insert,
          if_pos ⟨h1, h2⟩, if_neg (by simp [h1, h2]), Finset.union_insert]

lemma negative_filter_spec (A : ℕ) (posSet : Finset ℕ) (f : ℕ → ℚ) :
    negative_filter A posSet f
      = ((Finset.range A).filter (fun i => i ∉ posSet ∧ ¬(99/100 < f i)),
         (A - posSet.card) - ((Finset.range A).filter (fun i => i ∉ posSet ∧ 99/100 < f i)).card)
    := by
  unfold negative_filter
  rw [negative_filter_fold]
  simp

lemma negative_filter_count_eq_card (A : ℕ) (posSet : Finset ℕ) (f : ℕ → ℚ)
    (hpos : posSet ⊆ Finset.range A) :
    (negative_filter A posSet f).2 = (negative_filter A posSet f).1.card := by
  rw [negative_filter_spec]
  have hsd : (Finset.range A).filter (fun i => i ∉ posSet) = Finset.range A \ posSet :=
    (Finset.sdiff_eq_filter _ _).symm
  have hcard : ((Finset.range A).filter (fun i => i ∉ posSet)).card = A - posSet.card := by
    rw [hsd, Finset.card_sdiff hpos, Finset.card_range]
  have hsplit :
      (((Finset.range A).filter (fun i => i ∉ posSet)).filter (fun i => 99/100 < f i)).card
        + (((Finset.range A).filter (fun i => i ∉ posSet)).filter
            (fun i => ¬(99/100 < f i))).card
      = ((Finset.range A).filter (fun i => i ∉ posSet)).card :=
    Finset.filter_card_add_filter_neg_card_eq_card _
  rw [Finset.filter_filter, Finset.filter_filter] at hsplit
  simp only []
  omega

end RefineDet

namespace RefineDet

/-- C8: per batch item, after hard-negative mining the surviving negative
count is at most `3 × positive_count` (unconditionally — the loss-sorted
list contains every anchor index, so candidates never run out before the
cap is met); and mining never removes a positive anchor: every anchor of the
positive set has a nonzero entry in the final `pos_neg_mask`. -/
theorem hard_negative_mining_cap_and_keeps_positives (A : ℕ) (posSet : Finset ℕ)
    (armConf1 lossAt : ℕ → ℚ) (hpos : posSet ⊆ Finset.range A) :
    (hard_negative_mining A posSet armConf1 lossAt).2 ≤ 3 * posSet.card ∧
    ∀ i ∈ posSet,
      pos_neg_mask_val posSet (hard_negative_mining A posSet armConf1 lossAt).1 i ≠ 0 := by
  constructor
  · have hmem : ∀ j ∈ (negative_filter A posSet armConf1).1,
        j ∈ ((cross_entropy_per_anchor A A lossAt).mergeSort
          (fun p q => decide (p.2 ≤ q.2))).map Prod.fst := by
      intro j hj
      have hjA : j < A := by
        rw [negative_filter_spec] at hj
        simp only [Finset.mem_filter, Finset.mem_range] at hj
        exact hj.1
      have hperm := List.mergeSort_perm (cross_entropy_per_anchor A A lossAt)
        (fun p q => decide (p.2 ≤ q.2))
      rw [List.Perm.mem_iff (hperm.map Prod.fst)]
      unfold cross_entropy_per_anchor
      rw [List.map_append, List.map_map]
      refine List.mem_append.mpr (Or.inr ?_)
      simpa using List.mem_range.mpr hjA
    exact mine_loop_le (3 * posSet.card) _ _ _
      (negative_filter_count_eq_card A posSet armConf1 hpos) hmem
  · intro i hi
    unfold pos_neg_mask_val
    rw [if_pos hi]
    omega

/-- Closed witness for the C8 theorem: two anchors, one positive. -/
theorem hard_negative_mining_cap_witness :
    (hard_negative_mining 2 {0} (fun _ => 0) (fun _ => 1)).2 ≤ 3 * Finset.card {0} ∧
    ∀ i ∈ ({0} : Finset ℕ),
      pos_neg_mask_val {0} (hard_negative_mining 2 {0} (fun _ => 0) (fun _ => 1)).1 i ≠ 0 :=
  hard_negative_mining_cap_and_keeps_positives 2 {0} (fun _ => 0) (fun _ => 1) (by decide)

/-- C6: the claim says `cross_entropy_per_anchor` returns exactly one
`(anchor_index, loss)` pair per anchor with no other entries.  The code
constructs the vector with `l.size()` default `(0, 0.0)` entries and then
appends one pair per anchor with `push_back`: with a single anchor it
returns two entries, the spurious `(0, 0)` followed by the real pair. -/
theorem cross_entropy_per_anchor_extra_default_entries :
    cross_entropy_per_anchor 1 1 (fun _ => 7) = [(0, 0), (0, 7)] ∧
    (cross_entropy_per_anchor 1 1 (fun _ => 7)).length = 2 := by
  constructor <;> rfl

/-- C2: the claim says exactly the non-positive anchors whose ARM-predicted
background-class probability exceeds 0.99 are removed by the pre-filter.
The code compares the raw channel-1 ARM confidence value — a pre-softmax
logit, and the channel that the ARM loss labels treat as the positive
class — against 0.99.  For a non-positive anchor with raw ARM logits
(0, 0.992) the filter removes it (0.992 > 0.99), although both softmax
probabilities of that logit pair, `e^0.992/(e^0 + e^0.992) ≈ 0.73` and
`e^0/(e^0 + e^0.992) ≈ 0.27`, are below 0.99, so under the claimed
probability semantics no removal would occur whichever channel is read. -/
theorem arm_prefilter_uses_raw_channel1 :
    negative_filter 1 ∅ (fun _ => 124/125) = (∅, 0) ∧
    Real.exp 0.992 / (Real.exp 0 + Real.exp 0.992) < 99/100 ∧
    Real.exp 0 / (Real.exp 0 + Real.exp 0.992) < 99/100 := by
  have hE : Real.exp 0.992 < 3 :=
    lt_trans (Real.exp_lt_exp.mpr (by norm_num)) (lt_trans Real.exp_one_lt_d9 (by norm_num))
  have hE1 : 1 ≤ Real.exp 0.992 := Real.one_le_exp (by norm_num)
  have hden : (0:ℝ) < Real.exp 0 + Real.exp 0.992 := by positivity
  refine ⟨?_, ?_, ?_⟩
  · rw [show negative_filter 1 ∅ (fun _ => 124/125)
      = negative_filter_step ∅ (fun _ => 124/125) (∅, 1 - Finset.card ∅) 0 from rfl]
    unfold negative_filter_step
    rw [if_neg (Finset.not_mem_empty 0), if_pos (by norm_num : (99:ℚ)/100 < 124/125)]
    simp
  · rw [div_lt_div_iff₀ hden (by norm_num : (0:ℝ) < 100), Real.exp_zero]
    linarith
  · rw [div_lt_div_iff₀ hden (by norm_num : (0:ℝ) < 100), Real.exp_zero]
    linarith

end RefineDet

namespace RefineDet

/-! ### Forward loss guards (forwarding, lines 388-508) and the backward
pass (`cross_entropy_derivative` lines 542-554, `smooth_l1_derivative`
lines 576-604, `calcDerivative` lines 606-690) -/

/-- The four per-item loss contributions of `forwarding` (lines 390-506):
each `output.add_i(... / num_positive_anchors[b] ...)` is guarded by
`if (num_positive_anchors[b])`.  `ceArm`, `slArm`, `ceOdm`, `slOdm` stand
for the four loss values (ARM cross-entropy, ARM smooth-L1, masked ODM
cross-entropy, ODM smooth-L1) computed before division. -/
def forward_item_loss (nPos : ℕ) (ceArm slArm ceOdm slOdm : ℚ) : ℚ :=
  (if nPos ≠ 0 then ceArm / nPos / arm_conf_loss_divider else 0) +
  (if nPos ≠ 0 then slArm / nPos else 0) +
  (if nPos ≠ 0 then ceOdm / nPos else 0) +
  (if nPos ≠ 0 then slOdm / nPos else 0)

/-- `cross_entropy_derivative` (lines 542-554): `soft` stands for the output
of the external `ActiFunc::softmax` on the logits; the derivative is
`(softmax - one_hot(l)) / num_positive_anchors`, the division being an
unguarded `divide_i` by a possibly zero count, embedded as IEEE float
division. -/
def cross_entropy_derivative (soft : ℕ → ℕ → ℚ) (l : ℕ → ℕ) (nPos : ℚ) :
    ℕ → ℕ → FF := fun a j =>
  fdiv (soft a j - if l a = j then 1 else 0) nPos

/-- The clamp applied elementwise by `smooth_l1_derivative` (lines 579-589):
identity on (-1,1), −1 for negative values outside it, +1 for positive ones,
0 in the residual case. -/
def smooth_l1_clamp (val : ℚ) : ℚ :=
  if -1 < val ∧ val < 1 then val
  else if val < 0 then -1
  else if 0 < val then 1
  else 0

/-- `smooth_l1_derivative(x, y, l, x_deriv1, x_deriv2)` (lines 576-604):
`diff = x - y` clamped elementwise, rows with `l[i] = 0` zeroed, then split
into the width-2 halves `x_deriv1` (channels 0,1) and `x_deriv2`
(channels 2,3). -/
def smooth_l1_derivative (x y : ℕ → ℕ → ℚ) (l : ℕ → Bool) :
    (ℕ → ℕ → ℚ) × (ℕ → ℕ → ℚ) :=
  let d := fun i j => if l i then smooth_l1_clamp (x i j - y i j) else 0
  (fun i j => d i j, fun i j => d i (j + 2))

/-- ARM regression gradient blocks of `calcDerivative` (lines 676-678):
`smooth_l1_derivative` into the yx/hw halves, each half then divided by
`num_positive_anchors[b]` with an unguarded `divide_i`. -/
def arm_loc_deriv_blocks (armYXHW gtYXHW : ℕ → ℕ → ℚ) (posMask : ℕ → Bool)
    (nPos : ℚ) : (ℕ → ℕ → FF) × (ℕ → ℕ → FF) :=
  let d := smooth_l1_derivative armYXHW gtYXHW posMask
  (fun i j => fdiv (d.1 i j) nPos, fun i j => fdiv (d.2 i j) nPos)

/-- ODM regression gradient blocks of `calcDerivative` (lines 681-684): as
for the ARM stage, but the size-offset half is erased afterwards by
`odm_hw_deriv_.setZero()` (line 684), so the emitted block is identically
zero. -/
def odm_loc_deriv_blocks (odmYXHW gtYXHW : ℕ → ℕ → ℚ) (posMask : ℕ → Bool)
    (nPos : ℚ) : (ℕ → ℕ → FF) × (ℕ → ℕ → FF) :=
  let d := smooth_l1_derivative odmYXHW gtYXHW posMask
  (fun i j => fdiv (d.1 i j) nPos, fun _ _ => FF.fin 0)

lemma smooth_l1_clamp_eq_clamp (v : ℚ) : smooth_l1_clamp v = fmax (-1) (fmin 1 v) := by
  unfold smooth_l1_clamp fmax fmin
  rcases le_or_lt v (-1) with h | h
  · have hv0 : v < 0 := lt_of_le_of_lt h (by norm_num)
    have hv1 : v < 1 := lt_of_le_of_lt h (by norm_num)
    rw [if_neg (fun hc => absurd hc.1 (not_lt.mpr h)), if_pos hv0, if_pos hv1,
      if_neg (not_lt.mpr h)]
  · rcases lt_or_le v 1 with h2 | h2
    · rw [if_pos ⟨h, h2⟩, if_pos h2, if_pos h]
    · have hv0 : ¬(v < 0) := not_lt.mpr (le_trans (by norm_num) h2)
      have h0v : 0 < v := lt_of_lt_of_le (by norm_num) h2
      rw [if_neg (fun hc => absurd hc.2 (not_lt.mpr h2)), if_neg hv0, if_pos h0v,
        if_neg (not_lt.mpr h2), if_pos (by norm_num : (-1:ℚ) < 1)]

end RefineDet

namespace RefineDet

/-- C1: the claim says a zero-positive batch item contributes nothing to the
loss and an all-zero slice to the gradient, the positive count being
compared against zero wherever it is used as a divisor.  The forward half
holds: all four loss additions are guarded, so the item's loss contribution
is 0.  In `calcDerivative`, however, the divisions (lines 657, 677-678,
679, 682-683) are unguarded: with zero positives the ARM confidence
gradient divides `softmax - one_hot` by `0 * arm_conf_loss_divider = 0`;
at a label entry whose softmax value is 9/10 the numerator is -1/10, so
under IEEE float semantics the emitted value is `-∞` — not the claimed
zero (under a tensor library that rejects division by zero, the backward
call aborts instead; either way no all-zero slice is produced). -/
theorem zero_positive_guarded_forward_unguarded_backward :
    (∀ a b c d : ℚ, forward_item_loss 0 a b c d = 0) ∧
    cross_entropy_derivative (fun _ j => if j = 0 then 9/10 else 1/10) (fun _ => 0)
        (0 * arm_conf_loss_divider) 0 0 = FF.ninf ∧
    FF.ninf ≠ FF.fin 0 := by
  refine ⟨?_, ?_, ?_⟩
  · intro a b c d
    simp [forward_item_loss]
  · unfold cross_entropy_derivative fdiv arm_conf_loss_divider
    norm_num
  · intro h
    exact FF.noConfusion h

/-- C3 amended: each smooth-L1 gradient element equals the
prediction-minus-target difference clamped to [-1, 1] (the code's clamp
equals `max (-1) (min 1 ·)`), zeroed on anchors whose positive-mask bit is
0 and divided by the positive count; the ARM center-offset and size-offset
gradient 2-vectors are emitted as two separate blocks with this formula, and
the ODM center-offset block likewise — but the emitted ODM size-offset
block is zeroed (`odm_hw_deriv_.setZero()`, line 684), not the clamped
masked difference. -/
theorem smooth_l1_gradient_blocks (armYXHW odmYXHW gtYXHW : ℕ → ℕ → ℚ)
    (posMask : ℕ → Bool) (nPos : ℚ) (hn : nPos ≠ 0) (i j : ℕ) :
    (arm_loc_deriv_blocks armYXHW gtYXHW posMask nPos).1 i j
      = FF.fin ((if posMask i then smooth_l1_clamp (armYXHW i j - gtYXHW i j) else 0) / nPos) ∧
    (arm_loc_deriv_blocks armYXHW gtYXHW posMask nPos).2 i j
      = FF.fin ((if posMask i then smooth_l1_clamp (armYXHW i (j + 2) - gtYXHW i (j + 2))
          else 0) / nPos) ∧
    (odm_loc_deriv_blocks odmYXHW gtYXHW posMask nPos).1 i j
      = FF.fin ((if posMask i then smooth_l1_clamp (odmYXHW i j - gtYXHW i j) else 0) / nPos) ∧
    (odm_loc_deriv_blocks odmYXHW gtYXHW posMask nPos).2 i j = FF.fin 0 ∧
    (∀ v : ℚ, smooth_l1_clamp v = fmax (-1) (fmin 1 v)) := by
  refine ⟨?_, ?_, ?_, rfl, smooth_l1_clamp_eq_clamp⟩ <;>
    simp only [arm_loc_deriv_blocks, odm_loc_deriv_blocks, smooth_l1_derivative, fdiv,
      if_pos hn]

/-- Closed witness for the amended C3 theorem: one positive anchor, count 1,
differences of 1/2 on every channel. -/
theorem smooth_l1_gradient_blocks_witness :
    (arm_loc_deriv_blocks (fun _ _ => 1) (fun _ _ => 1/2) (fun _ => true) 1).1 0 0
      = FF.fin ((if (fun _ : ℕ => true) 0 then
          smooth_l1_clamp ((fun _ _ : ℕ => (1:ℚ)) 0 0 - (fun _ _ : ℕ => (1:ℚ)/2) 0 0)
          else 0) / 1) ∧
    (arm_loc_deriv_blocks (fun _ _ => 1) (fun _ _ => 1/2) (fun _ => true) 1).2 0 0
      = FF.fin ((if (fun _ : ℕ => true) 0 then
          smooth_l1_clamp ((fun _ _ : ℕ => (1:ℚ)) 0 2 - (fun _ _ : ℕ => (1:ℚ)/2) 0 2)
          else 0) / 1) ∧
    (odm_loc_deriv_blocks (fun _ _ => 1) (fun _ _ => 1/2) (fun _ => true) 1).1 0 0
      = FF.fin ((if (fun _ : ℕ => true) 0 then
          smooth_l1_clamp ((fun _ _ : ℕ => (1:ℚ)) 0 0 - (fun _ _ : ℕ => (1:ℚ)/2) 0 0)
          else 0) / 1) ∧
    (odm_loc_deriv_blocks (fun _ _ => 1) (fun _ _ => 1/2) (fun _ => true) 1).2 0 0
      = FF.fin 0 ∧
    (∀ v : ℚ, smooth_l1_clamp v = fmax (-1) (fmin 1 v)) :=
  smooth_l1_gradient_blocks (fun _ _ => 1) (fun _ _ => 1) (fun _ _ => 1/2)
    (fun _ => true) 1 one_ne_zero 0 0

/-- C3 counterexample: with one positive anchor, count 1, and an ODM
size-channel difference of 1/2, the claim's formula gives gradient entry
`clamp(1/2)/1 = 1/2`, but the emitted ODM size-offset block entry is 0. -/
theorem odm_hw_gradient_zeroed_counterexample :
    (odm_loc_deriv_blocks (fun _ _ => 1/2) (fun _ _ => 0) (fun _ => true) 1).2 0 0
      = FF.fin 0 ∧
    fdiv (smooth_l1_clamp ((1:ℚ)/2 - 0)) 1 = FF.fin (1/2) ∧
    FF.fin (0:ℚ) ≠ FF.fin (1/2) := by
  refine ⟨rfl, ?_, ?_⟩
  · norm_num [fdiv, smooth_l1_clamp]
  · simp only [ne_eq, FF.fin.injEq]
    norm_num

end RefineDet
